import Mathlib

/-!
Verification development for `borg-backup.py` (koskev/borg-helper).

The script is shallowly embedded: every external side effect (a `borg`
subprocess, an `sshfs` mount, a `fusermount -u`, a `mkdir`, a keyring query,
an interactive password prompt) is recorded as an `Event` in a trace, and the
outside world (hostname, run timestamp, filesystem, mount results, keyring,
probe results, operator input) is a `World` of pure functions.  Python
exceptions that the script does not catch are modelled with `Except PyExn`.
Machine behaviour the script never inspects (stdout of subprocesses, the
contents of backups) is not modelled; exit codes that the script does inspect
(sshfs, `borg info`) are part of `World`.
-/

namespace BorgHelper

/-- Uncaught Python exceptions the script can raise: `valueError` models the
unpacking error of `user, hostname = host.split("@")` when the identity does
not contain exactly one `@`; `eofError` models `getpass.getpass` raising at
end of input while the password probe keeps failing. -/
inductive PyExn where
  | valueError
  | eofError
deriving DecidableEq

/-- One observable external action of the script, in program order. -/
inductive Event where
  | providerQuery (system user : String)
  | infoProbe (repo passphrase : String)
  | mkdir (path : String)
  | mount (host path : String)
  | unmount (path : String)
  | create (options repo name : String) (folders excludes : List String)
  | prune (repo : String) (keep_daily keep_weekly keep_monthly keep_yearly : Nat) (pfx : String)
deriving DecidableEq

/-- Split a character list at every occurrence of `c`, mirroring Python's
`str.split` with a one-character separator (`"".split("@") == [""]`,
`"a@b@c".split("@") == ["a","b","c"]`). -/
def splitChar (c : Char) : List Char → List (List Char)
  | [] => [[]]
  | a :: rest =>
    let r := splitChar c rest
    if a = c then [] :: r
    else
      match r with
      | [] => [[a]]
      | g :: gs => (a :: g) :: gs

/-- Python's `host.split("@")` (source line 52). -/
def splitOnAt (host : String) : List String :=
  (splitChar '@' host.data).map String.mk

/-- Source `list_prefix` (line 39): `[prefix + x for x in l]`.  The source
name cannot be used verbatim here, so the parameter is abbreviated `pfx`. -/
def list_pfx (l : List String) (pfx : String) : List String :=
  l.map (fun x => pfx ++ x)

/-- Source `list_to_string_prefix` (line 42): `" ".join(list_prefix(l, prefix))`. -/
def list_to_string_pfx (l : List String) (pfx : String) : String :=
  String.intercalate " " (list_pfx l pfx)

/-- The exact command string built by `backup_create` (source line 46). -/
def backup_create_cmd (options repo name : String) (folders excludes : List String) : String :=
  "borg create " ++ options ++ " " ++ repo ++ "::" ++ name ++ " " ++
    String.intercalate " " folders ++ " " ++ list_to_string_pfx excludes "--exclude " ++
    " --exclude-if-present .nobackup"

/-- Source `backup_create` (line 45): one `borg create` subprocess invocation,
recorded as a structured trace event carrying the arguments of the call. -/
def backup_create (options repo name : String) (folders excludes : List String) : Event :=
  Event.create options repo name folders excludes

/-- Source `backup_prune` (line 63): one `borg prune` invocation with the
given keep-counts and name-prefix filter. -/
def backup_prune (repo : String) (keep_daily keep_weekly keep_monthly keep_yearly : Nat)
    (pfx : String) : Event :=
  Event.prune repo keep_daily keep_weekly keep_monthly keep_yearly pfx

/-- `backup_prune` invoked with its Python default keep-counts
(`keep_daily=7, keep_weekly=4, keep_monthly=6, keep_yearly=0`), as every
call site in the source does. -/
def backup_prune_d (repo : String) (pfx : String) : Event :=
  backup_prune repo 7 4 6 0 pfx

/-- `TMP_DIR = "/tmp/backup/{}".format(host)` (source line 51). -/
def tmp_dir (host : String) : String :=
  "/tmp/backup/" ++ host

/-- The result of `BorgConfig.get_password_store` (source line 104): either
the JSON object stored under `"password_store"`, or the `defaultdict(str)`
default, which answers the empty string for every key instead of raising
`KeyError`. -/
inductive PwStore where
  | given (entries : List (String × String))
  | defaulted
deriving DecidableEq

/-- Python subscripting `store[key]`: `none` models a raised `KeyError`
(only possible on a real dict), `some v` the looked-up value; the
`defaultdict(str)` default yields `""` for every key. -/
def PwStore.lookup : PwStore → String → Option String
  | .given es, k => (es.find? (fun kv => kv.1 == k)).map (fun kv => kv.2)
  | .defaulted, _ => some ""

/-- The key/value pairs actually stored in the mapping (the `defaultdict`
default is an empty mapping). -/
def PwStore.entries : PwStore → List (String × String)
  | .given es => es
  | .defaulted => []

/-- A parsed `config.json` document, restricted to the recognized fields with
their expected JSON types; `none` models the key being absent from the
document (`BorgConfig.__get_config`'s `name in self.config` test).
`remote_folders` keeps the JSON object's key order; keys of one object are
unique.  Unrecognized fields are ignored by the script and hence not
modelled. -/
structure BorgConfig where
  options : Option String
  repositories : Option (List String)
  backup_folders : Option (List String)
  excludes : Option (List String)
  remote_folders : Option (List (String × List String))
  password : Option String
  password_store : Option (List (String × String))
deriving DecidableEq

/-- Source `get_borg_options` (line 89). -/
def BorgConfig.get_borg_options (c : BorgConfig) : String :=
  c.options.getD ""

/-- Source `get_remote_folders` (line 92). -/
def BorgConfig.get_remote_folders (c : BorgConfig) : List (String × List String) :=
  c.remote_folders.getD []

/-- Source `get_repositories` (line 95). -/
def BorgConfig.get_repositories (c : BorgConfig) : List String :=
  c.repositories.getD []

/-- Source `get_excludes` (line 98). -/
def BorgConfig.get_excludes (c : BorgConfig) : List String :=
  c.excludes.getD []

/-- Source `get_backup_folders` (line 101). -/
def BorgConfig.get_backup_folders (c : BorgConfig) : List String :=
  c.backup_folders.getD []

/-- Source `get_password_store` (line 104): defaults to `defaultdict(str)`. -/
def BorgConfig.get_password_store (c : BorgConfig) : PwStore :=
  match c.password_store with
  | some es => PwStore.given es
  | none => PwStore.defaulted

/-- Source `BorgConfig.get_password` (line 107). -/
def BorgConfig.get_password (c : BorgConfig) : String :=
  c.password.getD ""

/-- Source module-level `get_password` (line 28), the keyring boundary.
`provider system user = none` models any failure of the `try` block other
than the explicit `raise` (missing `keyring` module, a lookup exception, or
`keyring.get_password` returning `None`, which makes `len(password)` raise
`TypeError`); `some pw` models a returned string.  An empty returned string
triggers the explicit `raise`, so the function yields `""` in every failure
case and never propagates an exception. -/
def get_password (provider : String → String → Option String) (system user : String) : String :=
  match provider system user with
  | some pw => if pw.length = 0 then "" else pw
  | none => ""

/-- Source `main` lines 113-121: the initial passphrase resolution, up to and
including the `os.environ` assignment.  Returns the resolved passphrase and
the provider-query events emitted on the way.  The `try`/`except: pass`
around the store lookup swallows the `KeyError` a real dict raises for a
missing `"system"`/`"user"` key, in which case `password` keeps its prior
value `""` and the provider is never reached. -/
def resolve_password (c : BorgConfig) (provider : String → String → Option String) :
    String × List Event :=
  let password := c.get_password
  if password = "" then
    let pw_option := c.get_password_store
    match pw_option.lookup "system" with
    | none => (password, [])
    | some system =>
      match pw_option.lookup "user" with
      | none => (password, [])
      | some user => (get_password provider system user, [Event.providerQuery system user])
  else (password, [])

/-- The environment of one run: everything outside the script's control.
`hostname` is `socket.gethostname()`, `timestamp` is `BACKUP_DATE` (captured
once at process start), `pathExists` the local filesystem, `provider` the
keyring (see `get_password`), `mountRet` the exit status of the `sshfs`
command for a given remote identity, `borgInfo repo pw` whether
`borg info repo` exits with status `0` while `BORG_PASSPHRASE` holds `pw`
(deterministic within a run), and `prompts` the operator's answers to
successive `getpass` prompts.  `mkdir(parents=True, exist_ok=True)` on
`/tmp/backup/...` is modelled as always succeeding. -/
structure World where
  hostname : String
  timestamp : String
  pathExists : String → Bool
  provider : String → String → Option String
  mountRet : String → Int
  borgInfo : String → String → Bool
  prompts : List String

/-- Source `backup_create_remote` (lines 49-61): for each `user@host` →
folder-list pair, split the identity on `@` (an identity without exactly one
`@` makes the tuple unpacking raise `ValueError`, uncaught), make the mount
directory, run `sshfs`; only if the mount exited with `0`: run
`backup_create` with the `--files-cache ctime,size` options prefix, the
snapshot name `{hostname}-{name}`, the folders rewritten under the mount
point, then `fusermount -u`, then `backup_prune` with the remote short name
as prefix.  The remote-folder list is processed in order; an uncaught
exception aborts the whole run. -/
def backup_create_remote (w : World) (options repo name : String) (excludes : List String) :
    List (String × List String) → Except PyExn (List Event)
  | [] => .ok []
  | (host, folders) :: rest =>
    match splitOnAt host with
    | [_user, hostname] =>
      match backup_create_remote w options repo name excludes rest with
      | .error e => .error e
      | .ok evs =>
        .ok ((if w.mountRet host = 0 then
          [Event.mkdir (tmp_dir host), Event.mount host (tmp_dir host),
            backup_create ("--files-cache ctime,size " ++ options) repo (hostname ++ "-" ++ name)
              (list_pfx folders (tmp_dir host)) excludes,
            Event.unmount (tmp_dir host), backup_prune_d repo hostname]
          else [Event.mkdir (tmp_dir host), Event.mount host (tmp_dir host)]) ++ evs)
    | _ => .error PyExn.valueError

/-- The trace `backup_create_remote` produces when no identity is malformed
(pure form, used to state trace equations). -/
def remote_trace (w : World) (options repo name : String) (excludes : List String) :
    List (String × List String) → List Event
  | [] => []
  | (host, folders) :: rest =>
    (match splitOnAt host with
     | [_user, hostname] =>
       if w.mountRet host = 0 then
         [Event.mkdir (tmp_dir host), Event.mount host (tmp_dir host),
           backup_create ("--files-cache ctime,size " ++ options) repo (hostname ++ "-" ++ name)
             (list_pfx folders (tmp_dir host)) excludes,
           Event.unmount (tmp_dir host), backup_prune_d repo hostname]
       else [Event.mkdir (tmp_dir host), Event.mount host (tmp_dir host)]
     | _ => []) ++ remote_trace w options repo name excludes rest

/-- Source `main` lines 127-129: `while not borg_test_password(repo):` prompt
and reinstall the passphrase.  Each probe is one `borg info` subprocess
(`Event.infoProbe`).  Returns the accepted passphrase (`none` when operator
input is exhausted while the probe still fails, i.e. `getpass` raises
`EOFError`), the unconsumed prompt answers, and the probe events. -/
def password_loop (w : World) (repo : String) :
    List String → String → Option String × List String × List Event
  | [], env =>
    if w.borgInfo repo env then (some env, [], [Event.infoProbe repo env])
    else (none, [], [Event.infoProbe repo env])
  | i :: rest, env =>
    if w.borgInfo repo env then (some env, i :: rest, [Event.infoProbe repo env])
    else
      let r := password_loop w repo rest i
      (r.1, r.2.1, Event.infoProbe repo env :: r.2.2)

/-- Source `main` lines 122-140, the body of `for repo in ...`: skip a
repository whose path does not exist; otherwise run the password loop, probe
once more (line 132), and if that probe succeeds run the local
`backup_create`, the local `backup_prune` with the local hostname as prefix,
and `backup_create_remote` with `BACKUP_DATE` as the name argument.  Returns
the updated ambient passphrase, the remaining prompt answers, and the events
of this iteration. -/
def process_repo (w : World) (c : BorgConfig) (repo : String) (env : String)
    (inputs : List String) : Except PyExn (String × List String × List Event) :=
  if w.pathExists repo = false then .ok (env, inputs, [])
  else
    match password_loop w repo inputs env with
    | (none, _, _) => .error PyExn.eofError
    | (some env2, inputs2, evs) =>
      if w.borgInfo repo env2 then
        match backup_create_remote w c.get_borg_options repo w.timestamp c.get_excludes
            c.get_remote_folders with
        | .error e => .error e
        | .ok remote_evs =>
          .ok (env2, inputs2,
            evs ++ [Event.infoProbe repo env2,
              backup_create c.get_borg_options repo (w.hostname ++ "-" ++ w.timestamp)
                c.get_backup_folders c.get_excludes,
              backup_prune_d repo w.hostname] ++ remote_evs)
      else .ok (env2, inputs2, evs ++ [Event.infoProbe repo env2])

/-- The repository loop of `main` (line 122), threading the ambient
`BORG_PASSPHRASE` value and the operator-input stream through the
iterations. -/
def run_repos (w : World) (c : BorgConfig) :
    List String → String → List String → Except PyExn (List Event)
  | [], _, _ => .ok []
  | repo :: rest, env, inputs =>
    match process_repo w c repo env inputs with
    | .error e => .error e
    | .ok (env2, inputs2, evs) =>
      match run_repos w c rest env2 inputs2 with
      | .error e => .error e
      | .ok evs2 => .ok (evs ++ evs2)

/-- The trace the repository loop produces when every probe succeeds with the
passphrase `env` held at entry (so the loop never consumes prompts and the
ambient passphrase never changes); pure form used in trace equations. -/
def repos_trace (w : World) (c : BorgConfig) (env : String) : List String → List Event
  | [] => []
  | repo :: rest =>
    (if w.pathExists repo = true then
      [Event.infoProbe repo env, Event.infoProbe repo env,
        backup_create c.get_borg_options repo (w.hostname ++ "-" ++ w.timestamp)
          c.get_backup_folders c.get_excludes,
        backup_prune_d repo w.hostname] ++
      remote_trace w c.get_borg_options repo w.timestamp c.get_excludes c.get_remote_folders
     else []) ++ repos_trace w c env rest

/-- Source `main` (lines 110-140): resolve the initial passphrase, install it
in the environment, and iterate the configured repositories.  The returned
trace lists every external action of the run; `.error` is an uncaught Python
exception (a crash). -/
def main_run (w : World) (c : BorgConfig) : Except PyExn (List Event) :=
  let r := resolve_password c w.provider
  match run_repos w c c.get_repositories r.1 w.prompts with
  | .error e => .error e
  | .ok evs => .ok (r.2 ++ evs)

/-- The repository a trace event concerns, when it targets one. -/
def eventRepo : Event → Option String
  | .infoProbe repo _ => some repo
  | .create _ repo _ _ _ => some repo
  | .prune repo _ _ _ _ _ => some repo
  | _ => none

/-- Whether an event is a `borg create` invocation. -/
def isCreate : Event → Bool
  | .create _ _ _ _ _ => true
  | _ => false

/-- Whether an event is a `fusermount -u` invocation. -/
def isUnmount : Event → Bool
  | .unmount _ => true
  | _ => false

/-- Whether an event is a `borg prune` invocation. -/
def isPrune : Event → Bool
  | .prune _ _ _ _ _ _ => true
  | _ => false

/-- The keep-counts of a prune event. -/
def pruneKeep : Event → Option (Nat × Nat × Nat × Nat)
  | .prune _ d w m y _ => some (d, w, m, y)
  | _ => none

/-- The `--prefix` filter of a prune event. -/
def prunePfx : Event → Option String
  | .prune _ _ _ _ _ p => some p
  | _ => none

/-- The snapshot name of a create event. -/
def createName : Event → Option String
  | .create _ _ name _ _ => some name
  | _ => none

/-- The snapshot names passed to `borg create` during a run, in order
(`none` when the run crashed). -/
def createNames (r : Except PyExn (List Event)) : Option (List String) :=
  match r with
  | .ok t => some (t.filterMap createName)
  | .error _ => none

/-! ### Helper lemmas -/

theorem tmp_dir_inj {a b : String} (h : tmp_dir a = tmp_dir b) : a = b := by
  have hd := congrArg String.data h
  simp only [tmp_dir, String.data_append] at hd
  have h2 := List.append_cancel_left hd
  cases a; cases b
  exact congrArg String.mk h2

theorem files_cache_ne (s : String) : ¬ ("--files-cache ctime,size " ++ s = s) := by
  intro h
  have h2 := congrArg String.length h
  rw [String.length_append] at h2
  have h3 : ("--files-cache ctime,size " : String).length = 25 := rfl
  rw [h3] at h2
  omega

theorem password_loop_probe_ok {w : World} {repo env : String}
    (h : w.borgInfo repo env = true) (inputs : List String) :
    password_loop w repo inputs env = (some env, inputs, [Event.infoProbe repo env]) := by
  cases inputs with
  | nil => simp [password_loop, h]
  | cons i rest => simp [password_loop, h]

theorem backup_create_remote_ok {w : World} {o r n : String} {ex : List String} :
    ∀ lst : List (String × List String), (∀ p ∈ lst, (splitOnAt p.1).length = 2) →
      backup_create_remote w o r n ex lst = .ok (remote_trace w o r n ex lst) := by
  intro lst
  induction lst with
  | nil => intro _; rfl
  | cons p rest ih =>
    intro h
    obtain ⟨host, folders⟩ := p
    have hh := h (host, folders) (List.mem_cons_self _ _)
    rw [List.length_eq_two] at hh
    obtain ⟨a, b, hab⟩ := hh
    have ht := ih (fun q hq => h q (List.mem_cons_of_mem _ hq))
    simp only [backup_create_remote, remote_trace, hab, ht]

theorem remote_trace_append {w : World} {o r n : String} {ex : List String}
    (l1 l2 : List (String × List String)) :
    remote_trace w o r n ex (l1 ++ l2) =
      remote_trace w o r n ex l1 ++ remote_trace w o r n ex l2 := by
  induction l1 with
  | nil => simp [remote_trace]
  | cons p rest ih =>
    obtain ⟨host, folders⟩ := p
    simp only [List.cons_append, remote_trace, List.append_eq, ih, List.append_assoc]

theorem process_repo_skip {w : World} {c : BorgConfig} {repo : String}
    (h : w.pathExists repo = false) (env : String) (inputs : List String) :
    process_repo w c repo env inputs = .ok (env, inputs, []) := by
  simp [process_repo, h]

theorem process_repo_ok {w : World} {c : BorgConfig} {repo : String}
    (hex : w.pathExists repo = true) (hb : ∀ e, w.borgInfo repo e = true)
    {rt : List Event}
    (hrm : backup_create_remote w c.get_borg_options repo w.timestamp c.get_excludes
      c.get_remote_folders = .ok rt) (env : String) (inputs : List String) :
    process_repo w c repo env inputs = .ok (env, inputs,
      [Event.infoProbe repo env, Event.infoProbe repo env,
        backup_create c.get_borg_options repo (w.hostname ++ "-" ++ w.timestamp)
          c.get_backup_folders c.get_excludes,
        backup_prune_d repo w.hostname] ++ rt) := by
  simp [process_repo, hex, password_loop_probe_ok (hb env) inputs, hb env, hrm]

theorem run_repos_eq {w : World} {c : BorgConfig}
    (hb : ∀ r e, w.borgInfo r e = true)
    (hwf : ∀ p ∈ c.get_remote_folders, (splitOnAt p.1).length = 2) :
    ∀ (rs : List String) (env : String) (inputs : List String),
      run_repos w c rs env inputs = .ok (repos_trace w c env rs) := by
  intro rs
  induction rs with
  | nil => intro env inputs; rfl
  | cons repo rest ih =>
    intro env inputs
    cases hex : w.pathExists repo with
    | false =>
      rw [run_repos, process_repo_skip hex]
      simp [ih, repos_trace, hex]
    | true =>
      rw [run_repos,
        process_repo_ok hex (fun e => hb repo e)
          (backup_create_remote_ok c.get_remote_folders hwf) env inputs]
      simp [ih, repos_trace, hex]

theorem main_run_eq {w : World} {c : BorgConfig}
    (hb : ∀ r e, w.borgInfo r e = true)
    (hwf : ∀ p ∈ c.get_remote_folders, (splitOnAt p.1).length = 2) :
    main_run w c = .ok ((resolve_password c w.provider).2 ++
      repos_trace w c (resolve_password c w.provider).1 c.get_repositories) := by
  simp only [main_run, run_repos_eq hb hwf]

theorem remote_trace_mem {w : World} {o r n : String} {ex : List String} :
    ∀ {lst : List (String × List String)} {e : Event}, e ∈ remote_trace w o r n ex lst →
      ∃ host folders, (host, folders) ∈ lst ∧
        (e = Event.mkdir (tmp_dir host) ∨ e = Event.mount host (tmp_dir host) ∨
          (w.mountRet host = 0 ∧ ∃ a b, splitOnAt host = [a, b] ∧
            (e = backup_create ("--files-cache ctime,size " ++ o) r (b ++ "-" ++ n)
                (list_pfx folders (tmp_dir host)) ex ∨
              e = Event.unmount (tmp_dir host) ∨ e = backup_prune_d r b))) := by
  intro lst
  induction lst with
  | nil => intro e he; simp [remote_trace] at he
  | cons p rest ih =>
    obtain ⟨host, folders⟩ := p
    intro e he
    rw [remote_trace] at he
    rcases List.mem_append.1 he with h1 | h2
    · refine ⟨host, folders, List.mem_cons_self _ _, ?_⟩
      rcases hs : splitOnAt host with _ | ⟨a, _ | ⟨b, _ | ⟨c2, tl⟩⟩⟩ <;> rw [hs] at h1
      · simp at h1
      · simp at h1
      · simp only [] at h1
        by_cases hm : w.mountRet host = 0
        · rw [if_pos hm] at h1
          simp only [List.mem_cons, List.not_mem_nil, or_false] at h1
          rcases h1 with h | h | h | h | h <;> subst h
          · exact Or.inl rfl
          · exact Or.inr (Or.inl rfl)
          · exact Or.inr (Or.inr ⟨hm, a, b, rfl, Or.inl rfl⟩)
          · exact Or.inr (Or.inr ⟨hm, a, b, rfl, Or.inr (Or.inl rfl)⟩)
          · exact Or.inr (Or.inr ⟨hm, a, b, rfl, Or.inr (Or.inr rfl)⟩)
        · rw [if_neg hm] at h1
          simp only [List.mem_cons, List.not_mem_nil, or_false] at h1
          rcases h1 with h | h <;> subst h
          · exact Or.inl rfl
          · exact Or.inr (Or.inl rfl)
      · simp at h1
    · obtain ⟨h2h, h2f, h2m, h2s⟩ := ih h2
      exact ⟨h2h, h2f, List.mem_cons_of_mem _ h2m, h2s⟩

theorem remote_trace_mem_create {w : World} {o r n : String} {ex : List String}
    {lst : List (String × List String)} {host : String} {folders : List String}
    {u hn : String} (hm : (host, folders) ∈ lst) (hs : splitOnAt host = [u, hn])
    (h0 : w.mountRet host = 0) :
    backup_create ("--files-cache ctime,size " ++ o) r (hn ++ "-" ++ n)
      (list_pfx folders (tmp_dir host)) ex ∈ remote_trace w o r n ex lst ∧
    backup_prune_d r hn ∈ remote_trace w o r n ex lst ∧
    Event.unmount (tmp_dir host) ∈ remote_trace w o r n ex lst := by
  induction lst with
  | nil => simp at hm
  | cons p rest ih =>
    obtain ⟨h2, f2⟩ := p
    rcases List.mem_cons.1 hm with hhd | htl
    · injection hhd with hh hf
      subst hh
      subst hf
      rw [remote_trace, hs]
      simp only []
      rw [if_pos h0]
      refine ⟨?_, ?_, ?_⟩ <;> simp
    · obtain ⟨ih1, ih2, ih3⟩ := ih htl
      rw [remote_trace]
      exact ⟨List.mem_append_right _ ih1, List.mem_append_right _ ih2,
        List.mem_append_right _ ih3⟩

theorem repos_trace_mem {w : World} {c : BorgConfig} {env : String} :
    ∀ {rs : List String} {e : Event}, e ∈ repos_trace w c env rs →
      ∃ repo, repo ∈ rs ∧ w.pathExists repo = true ∧
        (e = Event.infoProbe repo env ∨
          e = backup_create c.get_borg_options repo (w.hostname ++ "-" ++ w.timestamp)
            c.get_backup_folders c.get_excludes ∨
          e = backup_prune_d repo w.hostname ∨
          e ∈ remote_trace w c.get_borg_options repo w.timestamp c.get_excludes
            c.get_remote_folders) := by
  intro rs
  induction rs with
  | nil => intro e he; simp [repos_trace] at he
  | cons repo rest ih =>
    intro e he
    rw [repos_trace] at he
    rcases List.mem_append.1 he with h1 | h2
    · cases hex : w.pathExists repo with
      | false => rw [hex] at h1; simp at h1
      | true =>
        rw [hex] at h1
        simp only [if_true] at h1
        refine ⟨repo, List.mem_cons_self _ _, hex, ?_⟩
        rcases List.mem_append.1 h1 with h3 | h4
        · simp only [List.mem_cons, List.not_mem_nil, or_false] at h3
          rcases h3 with h | h | h | h <;> subst h
          · exact Or.inl rfl
          · exact Or.inl rfl
          · exact Or.inr (Or.inl rfl)
          · exact Or.inr (Or.inr (Or.inl rfl))
        · exact Or.inr (Or.inr (Or.inr h4))
    · obtain ⟨r2, hr2, hex2, hs2⟩ := ih h2
      exact ⟨r2, List.mem_cons_of_mem _ hr2, hex2, hs2⟩

theorem repos_trace_mem_of {w : World} {c : BorgConfig} {env : String}
    {rs : List String} {repo : String} {e : Event} (hr : repo ∈ rs)
    (hex : w.pathExists repo = true)
    (he : e ∈ [Event.infoProbe repo env, Event.infoProbe repo env,
        backup_create c.get_borg_options repo (w.hostname ++ "-" ++ w.timestamp)
          c.get_backup_folders c.get_excludes,
        backup_prune_d repo w.hostname] ++
      remote_trace w c.get_borg_options repo w.timestamp c.get_excludes
        c.get_remote_folders) :
    e ∈ repos_trace w c env rs := by
  induction rs with
  | nil => simp at hr
  | cons r2 rest ih =>
    rw [repos_trace]
    rcases List.mem_cons.1 hr with hhd | htl
    · subst hhd
      rw [hex]
      simp only [if_true]
      exact List.mem_append_left _ he
    · exact List.mem_append_right _ (ih htl)

theorem resolve_password_snd (c : BorgConfig) (pvd : String → String → Option String) :
    (resolve_password c pvd).2 = [] ∨
      ∃ s u, (resolve_password c pvd).2 = [Event.providerQuery s u] := by
  rw [resolve_password]
  by_cases hpw : c.get_password = ""
  · simp only [hpw, if_true]
    cases hsys : (c.get_password_store).lookup "system" with
    | none => exact Or.inl rfl
    | some s =>
      cases husr : (c.get_password_store).lookup "user" with
      | none => exact Or.inl rfl
      | some u => exact Or.inr ⟨s, u, rfl⟩
  · rw [if_neg hpw]
    exact Or.inl rfl

theorem remote_trace_local_create_not_mem {w : World} {o r n : String} {ex : List String}
    {lst : List (String × List String)} {o2 r2 n2 : String} {f2 e2 : List String}
    (hopt : ¬ ("--files-cache ctime,size " ++ o = o2)) :
    backup_create o2 r2 n2 f2 e2 ∉ remote_trace w o r n ex lst := by
  intro hmem
  obtain ⟨h2, f3, _, hshape⟩ := remote_trace_mem hmem
  rcases hshape with h | h | ⟨_, a, b, _, h | h | h⟩
  · simp [backup_create] at h
  · simp [backup_create] at h
  · rw [backup_create, backup_create] at h
    injection h with ho _
    exact hopt ho.symm
  · simp [backup_create] at h
  · simp [backup_create, backup_prune_d, backup_prune] at h

theorem remote_trace_unmount_not_mem {w : World} {o r n : String} {ex : List String}
    {lst : List (String × List String)} {host : String}
    (hni : host ∉ lst.map Prod.fst) :
    Event.unmount (tmp_dir host) ∉ remote_trace w o r n ex lst := by
  intro hmem
  obtain ⟨h2, f3, hm2, hshape⟩ := remote_trace_mem hmem
  have hne : h2 ≠ host := by
    intro he
    exact hni (he ▸ List.mem_map_of_mem Prod.fst hm2)
  rcases hshape with h | h | ⟨_, a, b, _, h | h | h⟩
  · simp at h
  · simp at h
  · simp [backup_create] at h
  · injection h with hp
    exact hne (tmp_dir_inj hp).symm
  · simp [backup_prune_d, backup_prune] at h

theorem password_loop_events {w : World} {repo : String} :
    ∀ (inputs : List String) (env : String) {e : Event},
      e ∈ (password_loop w repo inputs env).2.2 → ∃ p, e = Event.infoProbe repo p := by
  intro inputs
  induction inputs with
  | nil =>
    intro env e he
    rw [password_loop] at he
    by_cases hb : w.borgInfo repo env = true
    · rw [if_pos hb] at he
      simp at he
      exact ⟨env, he⟩
    · rw [if_neg hb] at he
      simp at he
      exact ⟨env, he⟩
  | cons i rest ih =>
    intro env e he
    rw [password_loop] at he
    by_cases hb : w.borgInfo repo env = true
    · rw [if_pos hb] at he
      simp at he
      exact ⟨env, he⟩
    · rw [if_neg hb] at he
      simp only [List.mem_cons] at he
      rcases he with he | he
      · exact ⟨env, he⟩
      · exact ih i he

theorem backup_create_remote_events {w : World} {o r n : String} {ex : List String} :
    ∀ {lst : List (String × List String)} {t : List Event},
      backup_create_remote w o r n ex lst = .ok t → ∀ {e : Event}, e ∈ t →
        eventRepo e = none ∨ eventRepo e = some r := by
  intro lst
  induction lst with
  | nil =>
    intro t ht e he
    rw [backup_create_remote] at ht
    injection ht with ht
    subst ht
    simp at he
  | cons p rest ih =>
    intro t ht e he
    obtain ⟨host, folders⟩ := p
    rw [backup_create_remote] at ht
    rcases hs : splitOnAt host with _ | ⟨a, _ | ⟨b, _ | ⟨c2, tl⟩⟩⟩ <;> rw [hs] at ht
    · exact absurd ht (by simp)
    · exact absurd ht (by simp)
    · cases hrec : backup_create_remote w o r n ex rest with
      | error err => rw [hrec] at ht; exact absurd ht (by simp)
      | ok evs =>
        rw [hrec] at ht
        simp only [] at ht
        injection ht with ht
        subst ht
        rcases List.mem_append.1 he with h1 | h2
        · by_cases hm : w.mountRet host = 0
          · rw [if_pos hm] at h1
            simp only [List.mem_cons, List.not_mem_nil, or_false] at h1
            rcases h1 with h | h | h | h | h <;> subst h <;>
              simp [eventRepo, backup_create, backup_prune_d, backup_prune]
          · rw [if_neg hm] at h1
            simp only [List.mem_cons, List.not_mem_nil, or_false] at h1
            rcases h1 with h | h <;> subst h <;> simp [eventRepo]
        · exact ih hrec h2
    · exact absurd ht (by simp)

theorem process_repo_events {w : World} {c : BorgConfig} {repo env : String}
    {inputs : List String} {env2 : String} {inputs2 : List String} {evs : List Event}
    (h : process_repo w c repo env inputs = .ok (env2, inputs2, evs)) :
    ∀ {e : Event}, e ∈ evs →
      eventRepo e = none ∨ (eventRepo e = some repo ∧ w.pathExists repo = true) := by
  intro e he
  rw [process_repo] at h
  by_cases hex : w.pathExists repo = false
  · rw [if_pos hex] at h
    injection h with h
    have : evs = [] := congrArg (fun q => q.2.2) h.symm
    subst this
    simp at he
  · rw [if_neg hex] at h
    have hex2 : w.pathExists repo = true := by
      cases hpe : w.pathExists repo with
      | false => exact absurd hpe hex
      | true => rfl
    rcases hpl : password_loop w repo inputs env with ⟨ro, rem, levs⟩
    rw [hpl] at h
    cases ro with
    | none => exact absurd h (by simp)
    | some env3 =>
      simp only [] at h
      by_cases hb : w.borgInfo repo env3 = true
      · rw [if_pos hb] at h
        cases hrm : backup_create_remote w c.get_borg_options repo w.timestamp c.get_excludes
            c.get_remote_folders with
        | error err => rw [hrm] at h; exact absurd h (by simp)
        | ok remote_evs =>
          rw [hrm] at h
          simp only [] at h
          injection h with h
          have hevs : evs = levs ++ [Event.infoProbe repo env3,
              backup_create c.get_borg_options repo (w.hostname ++ "-" ++ w.timestamp)
                c.get_backup_folders c.get_excludes,
              backup_prune_d repo w.hostname] ++ remote_evs :=
            congrArg (fun q => q.2.2) h.symm
          subst hevs
          rcases List.mem_append.1 he with h1 | h2
          · rcases List.mem_append.1 h1 with h3 | h4
            · have h3b : e ∈ (password_loop w repo inputs env).2.2 := by
                rw [hpl]; exact h3
              obtain ⟨p, hp⟩ := password_loop_events inputs env h3b
              subst hp
              exact Or.inr ⟨rfl, hex2⟩
            · simp only [List.mem_cons, List.not_mem_nil, or_false] at h4
              rcases h4 with h5 | h5 | h5 <;> subst h5 <;>
                simp [eventRepo, backup_create, backup_prune_d, backup_prune, hex2]
          · rcases backup_create_remote_events hrm h2 with h6 | h6
            · exact Or.inl h6
            · exact Or.inr ⟨h6, hex2⟩
      · rw [if_neg hb] at h
        injection h with h
        have hevs : evs = levs ++ [Event.infoProbe repo env3] :=
          congrArg (fun q => q.2.2) h.symm
        subst hevs
        rcases List.mem_append.1 he with h1 | h2
        · have h1b : e ∈ (password_loop w repo inputs env).2.2 := by
            rw [hpl]; exact h1
          obtain ⟨p, hp⟩ := password_loop_events inputs env h1b
          subst hp
          exact Or.inr ⟨rfl, hex2⟩
        · simp only [List.mem_cons, List.not_mem_nil, or_false] at h2
          subst h2
          exact Or.inr ⟨rfl, hex2⟩

theorem run_repos_events {w : World} {c : BorgConfig} :
    ∀ {rs : List String} {env : String} {inputs : List String} {t : List Event},
      run_repos w c rs env inputs = .ok t → ∀ {e : Event}, e ∈ t →
        eventRepo e = none ∨
          ∃ r2, r2 ∈ rs ∧ eventRepo e = some r2 ∧ w.pathExists r2 = true := by
  intro rs
  induction rs with
  | nil =>
    intro env inputs t ht e he
    rw [run_repos] at ht
    injection ht with ht
    subst ht
    simp at he
  | cons repo rest ih =>
    intro env inputs t ht e he
    rw [run_repos] at ht
    cases hpr : process_repo w c repo env inputs with
    | error err => rw [hpr] at ht; exact absurd ht (by simp)
    | ok res =>
      obtain ⟨env2, inputs2, evs⟩ := res
      rw [hpr] at ht
      simp only [] at ht
      cases hrr : run_repos w c rest env2 inputs2 with
      | error err => rw [hrr] at ht; exact absurd ht (by simp)
      | ok evs2 =>
        rw [hrr] at ht
        simp only [] at ht
        injection ht with ht
        subst ht
        rcases List.mem_append.1 he with h1 | h2
        · rcases process_repo_events hpr h1 with h3 | ⟨h3, h4⟩
          · exact Or.inl h3
          · exact Or.inr ⟨repo, List.mem_cons_self _ _, h3, h4⟩
        · rcases ih hrr h2 with h3 | ⟨r2, h4, h5, h6⟩
          · exact Or.inl h3
          · exact Or.inr ⟨r2, List.mem_cons_of_mem _ h4, h5, h6⟩

/-- The configuration with the same document except for the repository list
(used to state that a skipped repository behaves as if it were not
configured). -/
def withRepositories (c : BorgConfig) (rs : List String) : BorgConfig :=
  ⟨c.options, some rs, c.backup_folders, c.excludes, c.remote_folders, c.password,
    c.password_store⟩

theorem run_repos_withRepositories {w : World} {c : BorgConfig} {rs2 : List String} :
    ∀ (l : List String) (env : String) (inputs : List String),
      run_repos w (withRepositories c rs2) l env inputs = run_repos w c l env inputs := by
  intro l
  induction l with
  | nil => intro env inputs; rfl
  | cons repo rest ih =>
    intro env inputs
    rw [run_repos, run_repos]
    have hpp : process_repo w (withRepositories c rs2) repo env inputs =
        process_repo w c repo env inputs := rfl
    rw [hpp]
    cases process_repo w c repo env inputs with
    | error e => rfl
    | ok res =>
      obtain ⟨env2, inputs2, evs⟩ := res
      simp only []
      rw [ih]

theorem run_repos_skip {w : World} {c : BorgConfig} {r : String}
    (hne : w.pathExists r = false) (post : List String) :
    ∀ (pre : List String) (env : String) (inputs : List String),
      run_repos w c (pre ++ r :: post) env inputs = run_repos w c (pre ++ post) env inputs := by
  intro pre
  induction pre with
  | nil =>
    intro env inputs
    simp only [List.nil_append]
    rw [run_repos, process_repo_skip hne]
    simp only []
    cases hrr : run_repos w c post env inputs with
    | error e => rfl
    | ok evs2 => simp
  | cons r2 rest ih =>
    intro env inputs
    simp only [List.cons_append]
    rw [run_repos, run_repos]
    cases process_repo w c r2 env inputs with
    | error e => rfl
    | ok res =>
      obtain ⟨env2, inputs2, evs⟩ := res
      simp only []
      rw [ih]

theorem repos_trace_count_local_create {w : World} {c : BorgConfig} {env repo : String}
    (hex : w.pathExists repo = true) :
    ∀ rs : List String,
      (repos_trace w c env rs).count
        (backup_create c.get_borg_options repo (w.hostname ++ "-" ++ w.timestamp)
          c.get_backup_folders c.get_excludes) = rs.count repo := by
  intro rs
  induction rs with
  | nil => rfl
  | cons r2 rest ih =>
    rw [repos_trace, List.count_append, ih]
    have hremote : ∀ r3 : String,
        (remote_trace w c.get_borg_options r3 w.timestamp c.get_excludes
          c.get_remote_folders).count
          (backup_create c.get_borg_options repo (w.hostname ++ "-" ++ w.timestamp)
            c.get_backup_folders c.get_excludes) = 0 :=
      fun r3 => List.count_eq_zero.2
        (remote_trace_local_create_not_mem (files_cache_ne c.get_borg_options))
    by_cases hr : r2 = repo
    · subst hr
      rw [if_pos hex, List.count_append, hremote]
      simp [List.count_cons, backup_create, backup_prune_d, backup_prune, Nat.add_comm]
    · by_cases hp2 : w.pathExists r2 = true
      · rw [if_pos hp2, List.count_append, hremote]
        simp [List.count_cons, backup_create, backup_prune_d, backup_prune, hr,
          Ne.symm hr]
      · rw [if_neg hp2]
        simp [List.count_cons, Ne.symm hr]

theorem string_length_zero {s : String} (h : s.length = 0) : s = "" := by
  cases s with
  | mk data =>
    have hd : data.length = 0 := h
    rw [List.length_eq_zero] at hd
    subst hd
    rfl

theorem resolve_snd_count_create {c : BorgConfig} {pvd : String → String → Option String}
    {o2 r2 n2 : String} {f2 e2 : List String} :
    ((resolve_password c pvd).2).count (backup_create o2 r2 n2 f2 e2) = 0 := by
  rcases resolve_password_snd c pvd with h1 | ⟨s, u, h1⟩ <;> rw [h1]
  · rfl
  · simp [List.count_cons, backup_create]

/-! ### Concrete environments and configurations for witnesses and
counterexamples -/

/-- A benign environment: local hostname `H`, run timestamp `T0`, every path
exists, the keyring always fails, every `sshfs` mount exits `0`, every
`borg info` probe succeeds, no operator input. -/
def wOk : World :=
  ⟨"H", "T0", fun _ => true, fun _ _ => none, fun _ => 0, fun _ _ => true, []⟩

/-- Environment in which every `sshfs` mount fails with exit status `1`. -/
def wNoMount : World :=
  ⟨"H", "T0", fun _ => true, fun _ _ => none, fun _ => 1, fun _ _ => true, []⟩

/-- Environment in which only the path `/r` exists. -/
def wPart : World :=
  ⟨"H", "T0", fun p => p == "/r", fun _ _ => none, fun _ => 0, fun _ _ => true, []⟩

/-- Environment with a failing mount for `u@h1` only and only `/r` existing. -/
def wMixed : World :=
  ⟨"H", "T0", fun p => p == "/r", fun _ _ => none,
    fun h => if h == "u@h1" then 1 else 0, fun _ _ => true, []⟩

/-- Example document: one repository, one backup folder, one remote identity,
a literal passphrase. -/
def cEx : BorgConfig :=
  ⟨some "", some ["/r"], some ["/b"], some [], some [("u@h1", ["/d"])], some "p", none⟩

/-- The empty document: every recognized key absent. -/
def cNone : BorgConfig := ⟨none, none, none, none, none, none, none⟩

/-- Document whose `password` key is present but holds the empty string,
alongside a configured password store. -/
def cEmptyPw : BorgConfig :=
  ⟨none, none, none, none, none, some "", some [("system", "s"), ("user", "u")]⟩

/-- Document with a non-empty literal passphrase only. -/
def cLit : BorgConfig := ⟨none, none, none, none, none, some "lit", none⟩

/-- Document with a remote identity that contains no `@`. -/
def cBadHost : BorgConfig :=
  ⟨none, some ["/r"], some ["/b"], none, some [("h1", ["/d"])], some "p", none⟩

/-- Document with two repositories, excludes and two remote identities, and no
passphrase configured at all. -/
def cTwoRepos : BorgConfig :=
  ⟨some "-v", some ["/r", "/missing"], some ["/b"], some ["/b/c"],
    some [("u@h1", ["/d"]), ("u@h2", ["/e"])], none, none⟩

/-- A credential provider that always answers `x`. -/
def pvdSome : String → String → Option String := fun _ _ => some "x"

/-- A credential provider that always fails. -/
def pvdNone : String → String → Option String := fun _ _ => none

/-! ### Claims -/

/-- C6, counterexample: the configuration `cEmptyPw` has a literal `password`
entry set (to the empty string) and a password store configured; contrary to
the claim, the credential provider is queried and its value `x` — not the
configured literal — becomes the resolved passphrase, because the source
tests `password == ""` rather than key presence. -/
theorem C6_counterexample :
    cEmptyPw.password = some "" ∧
    resolve_password cEmptyPw pvdSome = ("x", [Event.providerQuery "s" "u"]) := by
  constructor
  · rfl
  · rfl

/-- C6, amended: the resolved passphrase equals the configured literal when a
NON-EMPTY one is set (and the provider is never queried); a configured empty
literal behaves as if unset.  Otherwise, when both store keys are readable,
the provider is queried once and its value is used when non-empty, with any
provider error or empty result yielding the empty passphrase; a store missing
the `system` or `user` key aborts the lookup (swallowed `KeyError`) with an
empty passphrase and no provider query.  Resolution is a total function —
it never fails. -/
theorem C6_password_resolution (c : BorgConfig) (pvd : String → String → Option String) :
    (¬ c.get_password = "" → resolve_password c pvd = (c.get_password, [])) ∧
    (c.get_password = "" → ∀ sys usr, (c.get_password_store).lookup "system" = some sys →
      (c.get_password_store).lookup "user" = some usr →
      resolve_password c pvd = (get_password pvd sys usr, [Event.providerQuery sys usr])) ∧
    (c.get_password = "" → (c.get_password_store).lookup "system" = none →
      resolve_password c pvd = ("", [])) ∧
    (c.get_password = "" → ∀ sys, (c.get_password_store).lookup "system" = some sys →
      (c.get_password_store).lookup "user" = none →
      resolve_password c pvd = ("", [])) ∧
    (∀ s u, pvd s u = none → get_password pvd s u = "") ∧
    (∀ s u, pvd s u = some "" → get_password pvd s u = "") ∧
    (∀ s u v, pvd s u = some v → ¬ v = "" → get_password pvd s u = v) := by
  refine ⟨?_, ?_, ?_, ?_, ?_, ?_, ?_⟩
  · intro hne
    rw [resolve_password]
    simp only [if_neg hne]
  · intro hpw sys usr hsys husr
    rw [resolve_password]
    simp only [if_pos hpw, hsys, husr]
  · intro hpw hsys
    rw [resolve_password]
    simp [if_pos hpw, hsys, hpw]
  · intro hpw sys hsys husr
    rw [resolve_password]
    simp [if_pos hpw, hsys, husr, hpw]
  · intro s u h
    rw [get_password, h]
  · intro s u h
    rw [get_password, h]
    rfl
  · intro s u v h hv
    rw [get_password, h]
    simp only []
    rw [if_neg]
    intro hl
    exact hv (string_length_zero hl)

/-- C6, witness: with a non-empty literal passphrase `lit` configured, the
resolution returns it and performs no provider query. -/
theorem C6_witness : resolve_password cLit pvdSome = ("lit", []) :=
  (C6_password_resolution cLit pvdSome).1 (by decide)

/-- C9: every configuration accessor returns the empty value of its type when
its key is absent (`""`, `[]`, the empty mapping — the `defaultdict(str)`
default additionally answers `""` for every key instead of raising); the
accessors are total functions, so none can fail on a missing key, and they
are pure functions of the loaded document, so two loads of the same document
(`c2 = c`) give identical results for every accessor. -/
theorem C9_config_accessors (c c2 : BorgConfig) (hsame : c2 = c) :
    (c.options = none → c.get_borg_options = "") ∧
    (c.repositories = none → c.get_repositories = []) ∧
    (c.backup_folders = none → c.get_backup_folders = []) ∧
    (c.excludes = none → c.get_excludes = []) ∧
    (c.remote_folders = none → c.get_remote_folders = []) ∧
    (c.password = none → c.get_password = "") ∧
    (c.password_store = none → (c.get_password_store).entries = [] ∧
      ∀ k, (c.get_password_store).lookup k = some "") ∧
    (c2.get_borg_options = c.get_borg_options ∧ c2.get_repositories = c.get_repositories ∧
      c2.get_backup_folders = c.get_backup_folders ∧ c2.get_excludes = c.get_excludes ∧
      c2.get_remote_folders = c.get_remote_folders ∧ c2.get_password = c.get_password ∧
      c2.get_password_store = c.get_password_store) := by
  subst hsame
  refine ⟨?_, ?_, ?_, ?_, ?_, ?_, ?_, rfl, rfl, rfl, rfl, rfl, rfl, rfl⟩ <;> intro h <;>
    simp [BorgConfig.get_borg_options, BorgConfig.get_repositories,
      BorgConfig.get_backup_folders, BorgConfig.get_excludes,
      BorgConfig.get_remote_folders, BorgConfig.get_password,
      BorgConfig.get_password_store, h, PwStore.entries, PwStore.lookup]

/-- C9, witness: on the empty document every accessor yields its empty
default. -/
theorem C9_witness : cNone.get_repositories = [] ∧ cNone.get_borg_options = "" :=
  ⟨((C9_config_accessors cNone cNone rfl).2.1) rfl, ((C9_config_accessors cNone cNone rfl).1) rfl⟩

/-- C10, counterexample: with neither `password` nor `password_store`
configured, the provider is queried with empty keys, but when the provider
answers a non-empty value for those keys the resolved passphrase is that
value, not the empty string the claim asserts. -/
theorem C10_counterexample :
    resolve_password cNone pvdSome = ("x", [Event.providerQuery "" ""]) ∧
    ¬ (("x" : String) = "") := by
  constructor
  · rfl
  · decide

/-- C10, amended: with neither `password` nor `password_store` configured, the
provider is nevertheless queried exactly once, with empty-string system and
user keys (the `defaultdict(str)` default yields `""` for any key rather than
failing), and the resolved passphrase is the provider's answer for those
keys — the empty string whenever the provider errors or returns empty. -/
theorem C10_provider_query (c : BorgConfig) (pvd : String → String → Option String)
    (hp : c.password = none) (hs : c.password_store = none) :
    resolve_password c pvd = (get_password pvd "" "", [Event.providerQuery "" ""]) ∧
    ((pvd "" "" = none ∨ pvd "" "" = some "") → (resolve_password c pvd).1 = "") := by
  have h1 : resolve_password c pvd =
      (get_password pvd "" "", [Event.providerQuery "" ""]) := by
    rw [resolve_password]
    simp [BorgConfig.get_password, hp, BorgConfig.get_password_store, hs, PwStore.lookup]
  refine ⟨h1, ?_⟩
  intro h
  rw [h1]
  rcases h with h | h <;> rw [get_password, h]
  rfl

/-- C10, witness: with an always-failing provider the query happens with
empty keys and the resolved passphrase is empty. -/
theorem C10_witness : resolve_password cNone pvdNone = ("", [Event.providerQuery "" ""]) :=
  (C10_provider_query cNone pvdNone rfl rfl).1

/-- C1, counterexample: in a run with local hostname `H` and timestamp `T0`,
one repository and one remote identity `u@h1`, the snapshot names passed to
the create operation are `H-T0` (local) and `h1-T0` (remote): the remote name
is `{remote_hostname}-{timestamp}`, not the claimed
`{remote_hostname}-{hostname}-{timestamp}` (`main` passes `BACKUP_DATE`, not
the host-qualified name, to `backup_create_remote`). -/
theorem C1_counterexample :
    createNames (main_run wOk cEx) = some ["H-T0", "h1-T0"] ∧
    ¬ (("h1-T0" : String) = "h1-H-T0") := by
  constructor
  · rfl
  · decide

/-- C1, amended: in a run with hostname `H` and timestamp `T`, the local
capture is named `{H}-{T}`, and the capture for a mounted remote identity
`user@host` is named `{remote_hostname}-{T}` (no local-hostname component);
indeed every create invocation of the run carries one of these two name
shapes. -/
theorem C1_snapshot_names (w : World) (c : BorgConfig)
    (hwf : ∀ p ∈ c.get_remote_folders, (splitOnAt p.1).length = 2)
    (hb : ∀ r e, w.borgInfo r e = true)
    (repo : String) (hr : repo ∈ c.get_repositories) (hex : w.pathExists repo = true)
    (host : String) (folders : List String) (hm : (host, folders) ∈ c.get_remote_folders)
    (u hn : String) (hsplit : splitOnAt host = [u, hn]) (hmount : w.mountRet host = 0) :
    ∃ t, main_run w c = Except.ok t ∧
      backup_create c.get_borg_options repo (w.hostname ++ "-" ++ w.timestamp)
        c.get_backup_folders c.get_excludes ∈ t ∧
      backup_create ("--files-cache ctime,size " ++ c.get_borg_options) repo
        (hn ++ "-" ++ w.timestamp) (list_pfx folders (tmp_dir host)) c.get_excludes ∈ t ∧
      ∀ e ∈ t, isCreate e = true →
        createName e = some (w.hostname ++ "-" ++ w.timestamp) ∨
        ∃ q ∈ c.get_remote_folders, ∃ a b, splitOnAt q.1 = [a, b] ∧
          createName e = some (b ++ "-" ++ w.timestamp) := by
  refine ⟨_, main_run_eq hb hwf, ?_, ?_, ?_⟩
  · exact List.mem_append_right _ (repos_trace_mem_of hr hex (by simp))
  · refine List.mem_append_right _ (repos_trace_mem_of hr hex ?_)
    exact List.mem_append_right _ (remote_trace_mem_create hm hsplit hmount).1
  · intro e he hc
    rcases List.mem_append.1 he with h1 | h2
    · rcases resolve_password_snd c w.provider with hrv | ⟨s2, u2, hrv⟩ <;> rw [hrv] at h1
      · simp at h1
      · simp only [List.mem_cons, List.not_mem_nil, or_false] at h1
        subst h1
        simp [isCreate] at hc
    · obtain ⟨repo2, _, _, hshape⟩ := repos_trace_mem h2
      rcases hshape with h | h | h | h
      · subst h; simp [isCreate] at hc
      · subst h
        exact Or.inl rfl
      · subst h; simp [isCreate, backup_prune_d, backup_prune] at hc
      · obtain ⟨h2h, h2f, hq, hsh⟩ := remote_trace_mem h
        rcases hsh with h3 | h3 | ⟨_, a, b, hs3, h3 | h3 | h3⟩ <;> subst h3
        · simp [isCreate] at hc
        · simp [isCreate] at hc
        · exact Or.inr ⟨(h2h, h2f), hq, a, b, hs3, rfl⟩
        · simp [isCreate] at hc
        · simp [isCreate, backup_prune_d, backup_prune] at hc

/-- C1, witness: the amended statement applied to the benign environment and
the example configuration. -/
theorem C1_witness :
    ∃ t, main_run wOk cEx = Except.ok t ∧
      backup_create cEx.get_borg_options "/r" (wOk.hostname ++ "-" ++ wOk.timestamp)
        cEx.get_backup_folders cEx.get_excludes ∈ t ∧
      backup_create ("--files-cache ctime,size " ++ cEx.get_borg_options) "/r"
        ("h1" ++ "-" ++ wOk.timestamp) (list_pfx ["/d"] (tmp_dir "u@h1"))
        cEx.get_excludes ∈ t ∧
      ∀ e ∈ t, isCreate e = true →
        createName e = some (wOk.hostname ++ "-" ++ wOk.timestamp) ∨
        ∃ q ∈ cEx.get_remote_folders, ∃ a b, splitOnAt q.1 = [a, b] ∧
          createName e = some (b ++ "-" ++ wOk.timestamp) :=
  C1_snapshot_names wOk cEx (by decide) (fun _ _ => rfl) "/r" (by decide) rfl
    "u@h1" ["/d"] (by decide) "u" "h1" (by decide) rfl

/-- C2, counterexample: a well-formed (parseable) document whose
`remote_folders` key holds the identity `h1` (no `@`) makes the run raise an
uncaught `ValueError` from the tuple unpacking `user, hostname =
host.split("@")`, even though everything else (repository, mounts, probes)
is healthy. -/
theorem C2_crash_counterexample :
    main_run wOk cBadHost = Except.error PyExn.valueError := by
  rfl

/-- C2, amended: for every well-formed configuration document in which every
remote identity in `remote_folders` contains exactly one `@`, and any
environment in which every `borg info` probe accepts the held passphrase
(so interactive prompting does not arise), the run raises no uncaught
exception; a remote identity without exactly one `@` crashes the run (see
the counterexample).  Missing repository paths, failed mounts, non-zero tool
exits and provider errors are all absorbed. -/
theorem C2_no_crash (w : World) (c : BorgConfig)
    (hwf : ∀ p ∈ c.get_remote_folders, (splitOnAt p.1).length = 2)
    (hb : ∀ r e, w.borgInfo r e = true) :
    ∃ t, main_run w c = Except.ok t :=
  ⟨_, main_run_eq hb hwf⟩

/-- C2, witness: the amended statement applied to an environment with a
missing repository, a failing mount and a failing provider. -/
theorem C2_witness : ∃ t, main_run wMixed cTwoRepos = Except.ok t :=
  C2_no_crash wMixed cTwoRepos (by decide) (fun _ _ => rfl)

/-- C3: for a remote identity whose `sshfs` mount exits non-zero, the
identity's entire contribution to the remote-flow trace is the mount-directory
creation and the failed mount attempt — no create, no unmount and no prune
invocation — the whole trace contains no unmount of that identity's mount
path, and the remaining identities (`post`) are processed exactly as they
would be on their own. -/
theorem C3_mount_failure_skips_host (w : World) (o r n : String) (ex : List String)
    (pre post : List (String × List String)) (host : String) (folders : List String)
    (hwf : ∀ p ∈ pre ++ (host, folders) :: post, (splitOnAt p.1).length = 2)
    (hmount : ¬ w.mountRet host = 0)
    (huniq : host ∉ (pre ++ post).map Prod.fst) :
    ∃ t1 t2,
      backup_create_remote w o r n ex pre = Except.ok t1 ∧
      backup_create_remote w o r n ex post = Except.ok t2 ∧
      backup_create_remote w o r n ex (pre ++ (host, folders) :: post) =
        Except.ok (t1 ++ [Event.mkdir (tmp_dir host), Event.mount host (tmp_dir host)] ++ t2) ∧
      (∀ e ∈ [Event.mkdir (tmp_dir host), Event.mount host (tmp_dir host)],
        isCreate e = false ∧ isUnmount e = false ∧ isPrune e = false) ∧
      (t1 ++ [Event.mkdir (tmp_dir host), Event.mount host (tmp_dir host)] ++ t2).count
        (Event.unmount (tmp_dir host)) = 0 := by
  have hwfpre : ∀ p ∈ pre, (splitOnAt p.1).length = 2 :=
    fun p hp => hwf p (List.mem_append_left _ hp)
  have hwfpost : ∀ p ∈ post, (splitOnAt p.1).length = 2 :=
    fun p hp => hwf p (List.mem_append_right _ (List.mem_cons_of_mem _ hp))
  have hwfh := hwf (host, folders) (List.mem_append_right _ (List.mem_cons_self _ _))
  rw [List.length_eq_two] at hwfh
  obtain ⟨a, b, hs⟩ := hwfh
  have hniPre : host ∉ pre.map Prod.fst := by
    intro hmem
    apply huniq
    rw [List.map_append]
    exact List.mem_append_left _ hmem
  have hniPost : host ∉ post.map Prod.fst := by
    intro hmem
    apply huniq
    rw [List.map_append]
    exact List.mem_append_right _ hmem
  refine ⟨remote_trace w o r n ex pre, remote_trace w o r n ex post,
    @backup_create_remote_ok w o r n ex pre hwfpre,
    @backup_create_remote_ok w o r n ex post hwfpost, ?_, ?_, ?_⟩
  · rw [@backup_create_remote_ok w o r n ex _ hwf, remote_trace_append]
    simp only [remote_trace, hs]
    rw [if_neg hmount, List.append_assoc]
  · intro e he
    simp only [List.mem_cons, List.not_mem_nil, or_false] at he
    rcases he with h | h <;> subst h <;> exact ⟨rfl, rfl, rfl⟩
  · rw [List.count_append, List.count_append,
      List.count_eq_zero.2 (@remote_trace_unmount_not_mem w o r n ex pre host hniPre),
      List.count_eq_zero.2 (@remote_trace_unmount_not_mem w o r n ex post host hniPost)]
    simp [List.count_cons]

/-- C3, witness: the statement applied to an all-mounts-fail environment with
one preceding-free and one following identity. -/
theorem C3_witness :
    ∃ t1 t2,
      backup_create_remote wNoMount "" "/r" "T0" [] [] = Except.ok t1 ∧
      backup_create_remote wNoMount "" "/r" "T0" [] [("u@h2", ["/e"])] = Except.ok t2 ∧
      backup_create_remote wNoMount "" "/r" "T0" []
          ([] ++ ("u@h1", ["/d"]) :: [("u@h2", ["/e"])]) =
        Except.ok (t1 ++ [Event.mkdir (tmp_dir "u@h1"),
          Event.mount "u@h1" (tmp_dir "u@h1")] ++ t2) ∧
      (∀ e ∈ [Event.mkdir (tmp_dir "u@h1"), Event.mount "u@h1" (tmp_dir "u@h1")],
        isCreate e = false ∧ isUnmount e = false ∧ isPrune e = false) ∧
      (t1 ++ [Event.mkdir (tmp_dir "u@h1"), Event.mount "u@h1" (tmp_dir "u@h1")] ++ t2).count
        (Event.unmount (tmp_dir "u@h1")) = 0 :=
  C3_mount_failure_skips_host wNoMount "" "/r" "T0" [] [] [("u@h2", ["/e"])] "u@h1" ["/d"]
    (by decide) (by decide) (by decide)

/-- C4: for a remote identity whose `sshfs` mount exits zero, the unmount of
that identity's mount path is invoked exactly once in the whole remote-flow
trace, and the identity's contribution places it directly after the capture
and before the prune, with the remaining identities (`post`) processed
afterwards exactly as they would be on their own; the capture's exit status
is not part of the model because the source discards it, so the unmount is
unconditional after a successful mount. -/
theorem C4_unmount_exactly_once (w : World) (o r n : String) (ex : List String)
    (pre post : List (String × List String)) (host : String) (folders : List String)
    (u hn : String)
    (hwf : ∀ p ∈ pre ++ (host, folders) :: post, (splitOnAt p.1).length = 2)
    (hsplit : splitOnAt host = [u, hn])
    (hmount : w.mountRet host = 0)
    (huniq : host ∉ (pre ++ post).map Prod.fst) :
    ∃ t1 t2,
      backup_create_remote w o r n ex pre = Except.ok t1 ∧
      backup_create_remote w o r n ex post = Except.ok t2 ∧
      backup_create_remote w o r n ex (pre ++ (host, folders) :: post) =
        Except.ok (t1 ++ [Event.mkdir (tmp_dir host), Event.mount host (tmp_dir host),
          backup_create ("--files-cache ctime,size " ++ o) r (hn ++ "-" ++ n)
            (list_pfx folders (tmp_dir host)) ex,
          Event.unmount (tmp_dir host), backup_prune_d r hn] ++ t2) ∧
      (t1 ++ [Event.mkdir (tmp_dir host), Event.mount host (tmp_dir host),
          backup_create ("--files-cache ctime,size " ++ o) r (hn ++ "-" ++ n)
            (list_pfx folders (tmp_dir host)) ex,
          Event.unmount (tmp_dir host), backup_prune_d r hn] ++ t2).count
        (Event.unmount (tmp_dir host)) = 1 := by
  have hwfpre : ∀ p ∈ pre, (splitOnAt p.1).length = 2 :=
    fun p hp => hwf p (List.mem_append_left _ hp)
  have hwfpost : ∀ p ∈ post, (splitOnAt p.1).length = 2 :=
    fun p hp => hwf p (List.mem_append_right _ (List.mem_cons_of_mem _ hp))
  have hniPre : host ∉ pre.map Prod.fst := by
    intro hmem
    apply huniq
    rw [List.map_append]
    exact List.mem_append_left _ hmem
  have hniPost : host ∉ post.map Prod.fst := by
    intro hmem
    apply huniq
    rw [List.map_append]
    exact List.mem_append_right _ hmem
  refine ⟨remote_trace w o r n ex pre, remote_trace w o r n ex post,
    @backup_create_remote_ok w o r n ex pre hwfpre,
    @backup_create_remote_ok w o r n ex post hwfpost, ?_, ?_⟩
  · rw [@backup_create_remote_ok w o r n ex _ hwf, remote_trace_append]
    simp only [remote_trace, hsplit]
    rw [if_pos hmount, List.append_assoc]
  · rw [List.count_append, List.count_append,
      List.count_eq_zero.2 (@remote_trace_unmount_not_mem w o r n ex pre host hniPre),
      List.count_eq_zero.2 (@remote_trace_unmount_not_mem w o r n ex post host hniPost)]
    simp [List.count_cons, backup_create, backup_prune_d, backup_prune]

/-- C4, witness: the statement applied to an all-mounts-succeed environment
with one following identity. -/
theorem C4_witness :
    ∃ t1 t2,
      backup_create_remote wOk "" "/r" "T0" [] [] = Except.ok t1 ∧
      backup_create_remote wOk "" "/r" "T0" [] [("u@h2", ["/e"])] = Except.ok t2 ∧
      backup_create_remote wOk "" "/r" "T0" []
          ([] ++ ("u@h1", ["/d"]) :: [("u@h2", ["/e"])]) =
        Except.ok (t1 ++ [Event.mkdir (tmp_dir "u@h1"),
          Event.mount "u@h1" (tmp_dir "u@h1"),
          backup_create ("--files-cache ctime,size " ++ "") "/r" ("h1" ++ "-" ++ "T0")
            (list_pfx ["/d"] (tmp_dir "u@h1")) [],
          Event.unmount (tmp_dir "u@h1"), backup_prune_d "/r" "h1"] ++ t2) ∧
      (t1 ++ [Event.mkdir (tmp_dir "u@h1"), Event.mount "u@h1" (tmp_dir "u@h1"),
          backup_create ("--files-cache ctime,size " ++ "") "/r" ("h1" ++ "-" ++ "T0")
            (list_pfx ["/d"] (tmp_dir "u@h1")) [],
          Event.unmount (tmp_dir "u@h1"), backup_prune_d "/r" "h1"] ++ t2).count
        (Event.unmount (tmp_dir "u@h1")) = 1 :=
  C4_unmount_exactly_once wOk "" "/r" "T0" [] [] [("u@h2", ["/e"])] "u@h1" ["/d"] "u" "h1"
    (by decide) (by decide) rfl (by decide)

/-- C5: a configured repository path that does not exist contributes nothing:
the whole run is identical to the run with that entry removed from the
repository list (so every following repository is processed unchanged), and
no event of the run — in particular no `borg info` probe, no create and no
prune — targets that path. -/
theorem C5_missing_repo_skipped (w : World) (c : BorgConfig) (pre post : List String)
    (r : String) (hne : w.pathExists r = false)
    (hc : c.get_repositories = pre ++ r :: post) :
    main_run w c = main_run w (withRepositories c (pre ++ post)) ∧
    ∀ t, main_run w c = Except.ok t → ∀ e ∈ t, ¬ (eventRepo e = some r) := by
  constructor
  · have h1 : resolve_password (withRepositories c (pre ++ post)) w.provider =
        resolve_password c w.provider := rfl
    have h2 : (withRepositories c (pre ++ post)).get_repositories = pre ++ post := rfl
    simp only [main_run, h1, h2, hc]
    rw [run_repos_withRepositories, run_repos_skip hne post]
  · intro t ht e he
    simp only [main_run] at ht
    cases hrr : run_repos w c c.get_repositories (resolve_password c w.provider).1
        w.prompts with
    | error err => rw [hrr] at ht; exact absurd ht (by simp)
    | ok evs =>
      rw [hrr] at ht
      simp only [] at ht
      injection ht with ht
      subst ht
      rcases List.mem_append.1 he with h1 | h2
      · rcases resolve_password_snd c w.provider with hrv | ⟨s2, u2, hrv⟩ <;> rw [hrv] at h1
        · simp at h1
        · simp only [List.mem_cons, List.not_mem_nil, or_false] at h1
          subst h1
          simp [eventRepo]
      · rcases run_repos_events hrr h2 with h3 | ⟨r2, hmem, hrepo, hpe⟩
        · rw [h3]; simp
        · rw [hrepo]
          intro hcon
          injection hcon with hcon
          subst hcon
          rw [hne] at hpe
          exact Bool.noConfusion hpe

/-- C5, witness: with only `/r` existing, the run over `["/r", "/missing"]`
equals the run over `["/r"]` and never targets `/missing`. -/
theorem C5_witness :
    main_run wPart cTwoRepos = main_run wPart (withRepositories cTwoRepos (["/r"] ++ [])) ∧
    ∀ t, main_run wPart cTwoRepos = Except.ok t → ∀ e ∈ t,
      ¬ (eventRepo e = some "/missing") :=
  C5_missing_repo_skipped wPart cTwoRepos ["/r"] [] "/missing" rfl rfl

/-- C7: in any completed run, every `borg prune` invocation carries the
keep-counts 7 daily, 4 weekly, 6 monthly, 0 yearly (the source defaults,
which every call site uses) together with a prefix filter that is either the
local hostname (the local flow's prune) or the short name of a mounted remote
identity, the part of `user@host` after the `@` (that identity's remote-flow
prune); moreover each existing repository does receive the local prune with
the local hostname as prefix. -/
theorem C7_prune_parameters (w : World) (c : BorgConfig)
    (hwf : ∀ p ∈ c.get_remote_folders, (splitOnAt p.1).length = 2)
    (hb : ∀ r e, w.borgInfo r e = true) :
    ∃ t, main_run w c = Except.ok t ∧
      (∀ e ∈ t, isPrune e = true → pruneKeep e = some (7, 4, 6, 0)) ∧
      (∀ repo ∈ c.get_repositories, w.pathExists repo = true →
        backup_prune_d repo w.hostname ∈ t) ∧
      (∀ e ∈ t, isPrune e = true →
        prunePfx e = some w.hostname ∨
        ∃ q ∈ c.get_remote_folders, ∃ a b, splitOnAt q.1 = [a, b] ∧
          prunePfx e = some b ∧ w.mountRet q.1 = 0) := by
  refine ⟨_, main_run_eq hb hwf, ?_, ?_, ?_⟩
  · intro e he hp
    rcases List.mem_append.1 he with h1 | h2
    · rcases resolve_password_snd c w.provider with hrv | ⟨s2, u2, hrv⟩ <;> rw [hrv] at h1
      · simp at h1
      · simp only [List.mem_cons, List.not_mem_nil, or_false] at h1
        subst h1
        simp [isPrune] at hp
    · obtain ⟨repo2, _, _, hshape⟩ := repos_trace_mem h2
      rcases hshape with h | h | h | h
      · subst h; simp [isPrune] at hp
      · subst h; simp [isPrune, backup_create] at hp
      · subst h; simp [pruneKeep, backup_prune_d, backup_prune]
      · obtain ⟨h2h, h2f, _, hsh⟩ := remote_trace_mem h
        rcases hsh with h3 | h3 | ⟨_, a, b, _, h3 | h3 | h3⟩ <;> subst h3
        · simp [isPrune] at hp
        · simp [isPrune] at hp
        · simp [isPrune, backup_create] at hp
        · simp [isPrune] at hp
        · simp [pruneKeep, backup_prune_d, backup_prune]
  · intro repo hr hex
    exact List.mem_append_right _ (repos_trace_mem_of hr hex (by simp))
  · intro e he hp
    rcases List.mem_append.1 he with h1 | h2
    · rcases resolve_password_snd c w.provider with hrv | ⟨s2, u2, hrv⟩ <;> rw [hrv] at h1
      · simp at h1
      · simp only [List.mem_cons, List.not_mem_nil, or_false] at h1
        subst h1
        simp [isPrune] at hp
    · obtain ⟨repo2, _, _, hshape⟩ := repos_trace_mem h2
      rcases hshape with h | h | h | h
      · subst h; simp [isPrune] at hp
      · subst h; simp [isPrune, backup_create] at hp
      · subst h
        exact Or.inl rfl
      · obtain ⟨h2h, h2f, hq, hsh⟩ := remote_trace_mem h
        rcases hsh with h3 | h3 | ⟨hm0, a, b, hs3, h3 | h3 | h3⟩ <;> subst h3
        · simp [isPrune] at hp
        · simp [isPrune] at hp
        · simp [isPrune, backup_create] at hp
        · simp [isPrune] at hp
        · exact Or.inr ⟨(h2h, h2f), hq, a, b, hs3, rfl, hm0⟩

/-- C7, witness: the statement applied to the benign environment and the
example configuration. -/
theorem C7_witness :
    ∃ t, main_run wOk cEx = Except.ok t ∧
      (∀ e ∈ t, isPrune e = true → pruneKeep e = some (7, 4, 6, 0)) ∧
      (∀ repo ∈ cEx.get_repositories, wOk.pathExists repo = true →
        backup_prune_d repo wOk.hostname ∈ t) ∧
      (∀ e ∈ t, isPrune e = true →
        prunePfx e = some wOk.hostname ∨
        ∃ q ∈ cEx.get_remote_folders, ∃ a b, splitOnAt q.1 = [a, b] ∧
          prunePfx e = some b ∧ wOk.mountRet q.1 = 0) :=
  C7_prune_parameters wOk cEx (by decide) (fun _ _ => rfl)

/-- C8: in any completed run, for an existing repository configured exactly
once, exactly one create invocation with the run-wide tool options targets it,
namely the local capture `repo::{hostname}-{timestamp}` whose capture roots
are precisely the configured backup folders and whose exclusion list is
precisely the configured exclude patterns; and the command line built for it
prefixes each exclude pattern with its own `--exclude ` flag and always ends
with the sentinel rule `--exclude-if-present .nobackup`. -/
theorem C8_local_create_invocation (w : World) (c : BorgConfig)
    (hwf : ∀ p ∈ c.get_remote_folders, (splitOnAt p.1).length = 2)
    (hb : ∀ r e, w.borgInfo r e = true)
    (repo : String) (hcount : c.get_repositories.count repo = 1)
    (hex : w.pathExists repo = true) :
    ∃ t, main_run w c = Except.ok t ∧
      t.count (backup_create c.get_borg_options repo (w.hostname ++ "-" ++ w.timestamp)
        c.get_backup_folders c.get_excludes) = 1 ∧
      backup_create_cmd c.get_borg_options repo (w.hostname ++ "-" ++ w.timestamp)
          c.get_backup_folders c.get_excludes =
        "borg create " ++ c.get_borg_options ++ " " ++ repo ++ "::" ++
          (w.hostname ++ "-" ++ w.timestamp) ++ " " ++
          String.intercalate " " c.get_backup_folders ++ " " ++
          String.intercalate " " (c.get_excludes.map (fun x => "--exclude " ++ x)) ++
          " --exclude-if-present .nobackup" := by
  refine ⟨_, main_run_eq hb hwf, ?_, rfl⟩
  rw [List.count_append, resolve_snd_count_create,
    repos_trace_count_local_create hex c.get_repositories, hcount]

/-- C8, witness: the statement applied to the benign environment and the
example configuration. -/
theorem C8_witness :
    ∃ t, main_run wOk cEx = Except.ok t ∧
      t.count (backup_create cEx.get_borg_options "/r"
        (wOk.hostname ++ "-" ++ wOk.timestamp)
        cEx.get_backup_folders cEx.get_excludes) = 1 ∧
      backup_create_cmd cEx.get_borg_options "/r" (wOk.hostname ++ "-" ++ wOk.timestamp)
          cEx.get_backup_folders cEx.get_excludes =
        "borg create " ++ cEx.get_borg_options ++ " " ++ "/r" ++ "::" ++
          (wOk.hostname ++ "-" ++ wOk.timestamp) ++ " " ++
          String.intercalate " " cEx.get_backup_folders ++ " " ++
          String.intercalate " " (cEx.get_excludes.map (fun x => "--exclude " ++ x)) ++
          " --exclude-if-present .nobackup" :=
  C8_local_create_invocation wOk cEx (by decide) (fun _ _ => rfl) "/r" (by decide) rfl

end BorgHelper
